import Mathlib

/-!
Verification development for the Prefect proof-of-concept orchestration
repository.  The definitions below are a shallow embedding of the Python
sources:

* `src/flows/prefect_flow-worker-flow-v3.py` — the `FlowSubmission` class
  (`submit`, `wait`), the `flow_submitter` factory, and the `main_etl`
  orchestrator flow;
* `src/flows/prefect_flow-worker-flow.py` / `-v2.py` — the free function
  `wait_for_flow_runs` and the v2 `main_etl` orchestrator;
* `src/scripts/setup_concurrency_limit.py` — `create_concurrency_limit` and
  `list_concurrency_limits`.

Modelling conventions:

* The Prefect backend is an oracle `Oracle : Nat → RunId → Except Unit
  StateType`: `oracle t id` is what `client.read_flow_run(id)` reports at
  polling scan number `t` (`.error ()` models a transient query exception
  raised by the client call).  One time unit is one scan of the polling loop
  (the code sleeps `poll_interval` seconds between scans).
* Python's `set(self.run_ids)` is modelled by the insertion-ordered list of
  run ids; theorems that need one-entry-per-id assume `Nodup`, which the
  backend contract guarantees (each `run_deployment` call yields a distinct
  id).
* The unbounded `while pending:` loop is embedded with explicit fuel: a
  `spin` outcome means the fuel was exhausted with the loop still running,
  so the real loop is still spinning after that many scans.
* Python dicts keyed by run id are association lists with replace-in-place
  update, matching CPython's insertion-ordered dict semantics.
-/

namespace PrefectPoc

/-- Flow run identifiers assigned by the backend (`flow_run.id`). -/
abbrev RunId := Nat

/-- The Prefect flow-run state types relevant to this repository
(`prefect.client.schemas.objects.StateType`). -/
inductive StateType where
  | Pending
  | Running
  | Completed
  | Failed
  | Crashed
  | Cancelled
deriving DecidableEq, Repr

/-- `state.is_final()`: Completed, Failed, Crashed and Cancelled are the
terminal states. -/
def StateType.isFinal : StateType → Bool
  | .Completed => true
  | .Failed => true
  | .Crashed => true
  | .Cancelled => true
  | _ => false

/-- `state.is_completed()`. -/
def StateType.isCompleted : StateType → Bool
  | .Completed => true
  | _ => false

/-- `state.name` as the Python code reads it (capitalised state name). -/
def StateType.name : StateType → String
  | .Pending => "Pending"
  | .Running => "Running"
  | .Completed => "Completed"
  | .Failed => "Failed"
  | .Crashed => "Crashed"
  | .Cancelled => "Cancelled"

/-- The backend as seen through `client.read_flow_run`: at scan time `t`,
polling `id` either reports a state or raises a transient query error. -/
abbrev Oracle := Nat → RunId → Except Unit StateType

/-- `self.results[run_id] = value` on a Python dict: replace the value in
place if the key is present, otherwise append the pair. -/
def updateResult : List (RunId × String) → RunId → String → List (RunId × String)
  | [], id, v => [(id, v)]
  | (k, w) :: rest, id, v =>
    if k = id then (k, v) :: rest else (k, w) :: updateResult rest id v

/-- Dict lookup on the results association list. -/
def lookupResult : List (RunId × String) → RunId → Option String
  | [], _ => none
  | (k, w) :: rest, id => if k = id then some w else lookupResult rest id

/-- One pass of the body `for run_id in list(pending): ...` from
`FlowSubmission.wait` (v3) and `wait_for_flow_runs` (v1/v2): poll every
still-pending id once, record terminal states into the results dict, and
return the ids still pending together with the number of `read_flow_run`
calls made.  If a poll raises, the exception propagates carrying the
results mutated so far and the number of polls issued (the code has no
`try`/`except` around `read_flow_run`). -/
def scanOnce (poll : RunId → Except Unit StateType) :
    List RunId → List (RunId × String) →
    Except (List (RunId × String) × Nat) (List RunId × List (RunId × String) × Nat)
  | [], results => .ok ([], results, 0)
  | id :: rest, results =>
    match poll id with
    | .error _ => .error (results, 1)
    | .ok st =>
      if st.isFinal then
        match scanOnce poll rest (updateResult results id st.name) with
        | .ok (p, r, n) => .ok (p, r, n + 1)
        | .error (r, n) => .error (r, n + 1)
      else
        match scanOnce poll rest results with
        | .ok (p, r, n) => .ok (id :: p, r, n + 1)
        | .error (r, n) => .error (r, n + 1)

/-- Outcome of running the polling loop with a given amount of fuel.
`done` is normal return, `raised` is a propagated `read_flow_run`
exception, `spin` means the loop is still running after the fuel ran out.
Each outcome records the final results dict, the number of
`read_flow_run` calls (`polls`), the number of `asyncio.sleep` calls
(`sleeps`) where applicable, and the scan clock value on exit. -/
inductive WaitOutcome where
  | done (results : List (RunId × String)) (polls sleeps tEnd : Nat)
  | raised (results : List (RunId × String)) (polls tEnd : Nat)
  | spin (pending : List RunId) (results : List (RunId × String)) (polls sleeps tEnd : Nat)
deriving DecidableEq, Repr

/-- Whether the loop is still running (fuel exhausted). -/
def WaitOutcome.isSpin : WaitOutcome → Bool
  | .spin _ _ _ _ _ => true
  | _ => false

/-- Whether the loop returned normally. -/
def WaitOutcome.isDone : WaitOutcome → Bool
  | .done _ _ _ _ => true
  | _ => false

/-- Whether a poll exception propagated out of the loop. -/
def WaitOutcome.isRaised : WaitOutcome → Bool
  | .raised _ _ _ => true
  | _ => false

/-- Number of `read_flow_run` calls recorded in an outcome. -/
def WaitOutcome.pollsOf : WaitOutcome → Nat
  | .done _ p _ _ => p
  | .raised _ p _ => p
  | .spin _ _ p _ _ => p

/-- The `while pending:` polling loop shared by `FlowSubmission.wait` (v3)
and `wait_for_flow_runs` (v1/v2): scan all pending ids, drop those observed
terminal, sleep iff some id is still pending, repeat.  `fuel` bounds the
number of scans taken by this embedding of the unbounded loop; `t` is the
scan clock. -/
def waitLoop (oracle : Oracle) :
    Nat → Nat → List RunId → List (RunId × String) → Nat → Nat → WaitOutcome
  | 0, t, pending, results, polls, sleeps =>
    if pending.isEmpty then .done results polls sleeps t
    else .spin pending results polls sleeps t
  | fuel + 1, t, pending, results, polls, sleeps =>
    if pending.isEmpty then .done results polls sleeps t
    else
      match scanOnce (oracle t) pending results with
      | .error (r, n) => .raised r (polls + n) t
      | .ok (p, r, n) =>
        waitLoop oracle fuel (t + 1) p r (polls + n)
          (if p.isEmpty then sleeps else sleeps + 1)

/-- The `FlowSubmission` class of `prefect_flow-worker-flow-v3.py`:
a deployment path, the ordered list of submitted run ids, and the results
dict populated by `wait`. -/
structure FlowSubmission where
  deployment_path : String
  run_ids : List RunId
  results : List (RunId × String)
deriving DecidableEq, Repr

/-- `flow_submitter(deployment_path)` / `FlowSubmission.__init__`:
fresh empty id list and empty results dict. -/
def flow_submitter (deployment_path : String) : FlowSubmission :=
  { deployment_path := deployment_path, run_ids := [], results := [] }

/-- `FlowSubmission.submit(**parameters)`: `run_deployment` yields a flow
run whose backend-assigned id is `id`; the id is appended to `run_ids` and
returned. -/
def FlowSubmission.submit (s : FlowSubmission) (id : RunId) : FlowSubmission × RunId :=
  ({ s with run_ids := s.run_ids ++ [id] }, id)

/-- `FlowSubmission.wait(poll_interval, show_summary)`: returns `{}`
immediately when no run was submitted, otherwise runs the polling loop
starting from the current `self.results`, and persists the mutated results
dict on the instance.  Returns the loop outcome together with the updated
instance. -/
def FlowSubmission.wait (s : FlowSubmission) (oracle : Oracle) (fuel t0 : Nat) :
    WaitOutcome × FlowSubmission :=
  if s.run_ids.isEmpty then (.done [] 0 0 t0, s)
  else
    match waitLoop oracle fuel t0 s.run_ids s.results 0 0 with
    | .done r p sl tE => (.done r p sl tE, { s with results := r })
    | .raised r p tE => (.raised r p tE, { s with results := r })
    | .spin pend r p sl tE => (.spin pend r p sl tE, { s with results := r })

/-- The summary logged at the end of `FlowSubmission.wait` when
`show_summary` is set: `total = len(self.results)`,
`success = sum(v == "Completed" for v in self.results.values())`,
`failed = total - success`. -/
def waitSummary (results : List (RunId × String)) : Nat × Nat × Nat :=
  let total := results.length
  let success := results.countP (fun p => p.2 = "Completed")
  (total, success, total - success)

/-- `wait_for_flow_runs(flow_run_ids)` of `prefect_flow-worker-flow.py`
and `-v2.py`: the same polling loop run over the given ids with nothing
accumulated beforehand.  The returned results component records the
terminal states the loop observed and logged (the Python function itself
logs them and returns `None`). -/
def wait_for_flow_runs (oracle : Oracle) (fuel t0 : Nat) (flow_run_ids : List RunId) :
    WaitOutcome :=
  waitLoop oracle fuel t0 flow_run_ids [] 0 0

/-- The dict returned by the v3 `main_etl` flow on success. -/
structure MainResult where
  pre_etl_run_ids : List RunId
  sub_etl_run_ids : List RunId
  final_etl_run_ids : List RunId
  status : String
deriving DecidableEq, Repr

/-- A completed execution of the v3 `main_etl` flow: the returned dict, the
per-batch results dicts, and the scan-clock instant at which the phase-2
job (`final_etl`) was submitted. -/
structure MainEtlRun where
  result : MainResult
  preResults : List (RunId × String)
  subResults : List (RunId × String)
  finalResults : List (RunId × String)
  tFinalSubmit : Nat
deriving DecidableEq, Repr

/-- The v3 `main_etl` orchestrator: phase 1 submits `pre_etl` and
`sub_etl` (backend-assigned ids `preId`, `subId`) and waits on both; only
after both waits return does phase 2 submit `final_etl` (id `finalId`) and
wait on it.  Submissions are instantaneous on the scan clock; each wait
resumes the clock where the previous one stopped.  Returns `none` if any
wait failed to return normally within the fuel bound. -/
def mainEtl (oracle : Oracle) (preId subId finalId : RunId) (fuel : Nat) :
    Option MainEtlRun :=
  let pre0 := flow_submitter "pre-etl-job/pre-etl-deployment"
  let sub0 := flow_submitter "sub-etl-job/sub-etl-deployment"
  let pre1 := (pre0.submit preId).1
  let sub1 := (sub0.submit subId).1
  match pre1.wait oracle fuel 0 with
  | (.done _ _ _ t1, pre2) =>
    match sub1.wait oracle fuel t1 with
    | (.done _ _ _ t2, sub2) =>
      let fin0 := flow_submitter "final-etl-job/final-etl-deployment"
      let fin1 := (fin0.submit finalId).1
      match fin1.wait oracle fuel t2 with
      | (.done _ _ _ _, fin2) =>
        some { result := { pre_etl_run_ids := pre2.run_ids
                         , sub_etl_run_ids := sub2.run_ids
                         , final_etl_run_ids := fin2.run_ids
                         , status := "completed" }
             , preResults := pre2.results
             , subResults := sub2.results
             , finalResults := fin2.results
             , tFinalSubmit := t2 }
      | _ => none
    | _ => none
  | _ => none

/-- The dict returned by the v2 `main_etl` flow on success. -/
structure MainResultV2 where
  pre_etl_run_id : RunId
  sub_etl_run_id : RunId
  final_etl_run_id : RunId
  status : String
deriving DecidableEq, Repr

/-- The v2 `main_etl` orchestrator: phase 1 triggers `pre_etl` and
`sub_etl` and waits on both ids with a single `wait_for_flow_runs` call;
phase 2 then triggers `final_etl` and waits on it.  The second component
of the returned pair is the scan-clock instant at which `final_etl` was
submitted. -/
def mainEtlV2 (oracle : Oracle) (preId subId finalId : RunId) (fuel : Nat) :
    Option (MainResultV2 × Nat) :=
  match wait_for_flow_runs oracle fuel 0 [preId, subId] with
  | .done _ _ _ t1 =>
    match wait_for_flow_runs oracle fuel t1 [finalId] with
    | .done _ _ _ _ =>
      some ({ pre_etl_run_id := preId
            , sub_etl_run_id := subId
            , final_etl_run_id := finalId
            , status := "completed" }, t1)
    | _ => none
  | _ => none

/-- Outcome of the `create_concurrency_limit` wrapper in
`src/scripts/setup_concurrency_limit.py`: created normally, caught an
"already exists" error without re-raising, or re-raised some other error. -/
inductive CreateResult where
  | created
  | alreadyExists
  | raised (msg : String)
deriving DecidableEq, Repr

/-- Modelled from the spec: the backend's `createConcurrencyLimit(tag, max)`
(`§4.1`/`§6`; the Prefect server is out of scope of the sources).  The
server keeps at most one active limit per tag: creating a limit whose tag
is already present leaves the store unchanged and raises an
"already exists" error, otherwise the new limit is recorded. -/
def backendCreateConcurrencyLimit (limits : List (String × Nat)) (tag : String) (mx : Nat) :
    List (String × Nat) × Except String Unit :=
  if limits.any (fun p => p.1 = tag) then (limits, .error "already exists")
  else (limits ++ [(tag, mx)], .ok ())

/-- Substring containment on character lists (structural recursion on the
haystack). -/
def containsSub (needle : List Char) : List Char → Bool
  | [] => needle.isPrefixOf []
  | c :: rest => if needle.isPrefixOf (c :: rest) then true else containsSub needle rest

/-- The check `"already exists" in str(e).lower()` from the wrapper:
substring containment in the lower-cased error message. -/
def mentionsAlreadyExists (msg : String) : Bool :=
  containsSub "already exists".data (msg.data.map Char.toLower)

/-- `create_concurrency_limit(limit_name, max_concurrent)` from
`src/scripts/setup_concurrency_limit.py`: calls the backend; an error whose
message contains "already exists" is caught and reported without
re-raising; any other error is re-raised. -/
def create_concurrency_limit (limits : List (String × Nat)) (limit_name : String)
    (max_concurrent : Nat) : List (String × Nat) × CreateResult :=
  match backendCreateConcurrencyLimit limits limit_name max_concurrent with
  | (l, .ok ()) => (l, .created)
  | (l, .error e) =>
    if mentionsAlreadyExists e then (l, .alreadyExists) else (l, .raised e)

/-- `list_concurrency_limits()` from the same script: reads back the
limits recorded on the server. -/
def list_concurrency_limits (limits : List (String × Nat)) : List (String × Nat) :=
  limits

/-- `n` successive `create_concurrency_limit` attempts for the same tag and
ceiling, threading the server store through. -/
def createAttempts : Nat → List (String × Nat) → String → Nat → List (String × Nat)
  | 0, l, _, _ => l
  | n + 1, l, tag, mx => createAttempts n (create_concurrency_limit l tag mx).1 tag mx

/-- An oracle that never raises: every poll reports a state. -/
def PureOracle (oracle : Oracle) : Prop :=
  ∀ t id, ∃ st, oracle t id = .ok st

/-- Terminal states are immutable: once a poll reports a terminal state,
every later poll reports the same state. -/
def MonoFinal (oracle : Oracle) : Prop :=
  ∀ t t' id st, t ≤ t' → oracle t id = .ok st → st.isFinal = true →
    oracle t' id = .ok st

/-- A run id for which the backend never reports a terminal state. -/
def NeverFinal (oracle : Oracle) (id : RunId) : Prop :=
  ∀ t st, oracle t id = .ok st → st.isFinal = false

/-- The polling loop of `FlowSubmission.wait` never exits, whatever fuel
bound is imposed on the embedding. -/
def waitNeverReturns (oracle : Oracle) (s : FlowSubmission) (t0 : Nat) : Prop :=
  ∀ fuel, ((s.wait oracle fuel t0).1).isSpin = true

section ResultsDict

theorem mem_keys_updateResult (r : List (RunId × String)) (id : RunId) (v : String)
    (x : RunId) :
    x ∈ (updateResult r id v).map Prod.fst ↔ x = id ∨ x ∈ r.map Prod.fst := by
  induction r with
  | nil => simp [updateResult]
  | cons hd tl ih =>
    obtain ⟨k, w⟩ := hd
    by_cases hk : k = id
    · subst hk
      simp [updateResult]
    · simp only [updateResult, if_neg hk, List.map_cons, List.mem_cons, ih]
      tauto

theorem nodup_keys_updateResult (r : List (RunId × String)) (id : RunId) (v : String)
    (h : (r.map Prod.fst).Nodup) : ((updateResult r id v).map Prod.fst).Nodup := by
  induction r with
  | nil => simp [updateResult]
  | cons hd tl ih =>
    obtain ⟨k, w⟩ := hd
    simp only [List.map_cons, List.nodup_cons] at h
    by_cases hk : k = id
    · subst hk
      simpa [updateResult] using h
    · simp only [updateResult, if_neg hk, List.map_cons, List.nodup_cons]
      refine ⟨fun hx => ?_, ih h.2⟩
      rcases (mem_keys_updateResult tl id v k).mp hx with h1 | h1
      · exact hk h1
      · exact h.1 h1

theorem lookupResult_updateResult_self (r : List (RunId × String)) (id : RunId)
    (v : String) : lookupResult (updateResult r id v) id = some v := by
  induction r with
  | nil => simp [updateResult, lookupResult]
  | cons hd tl ih =>
    obtain ⟨k, w⟩ := hd
    by_cases hk : k = id
    · subst hk
      simp [updateResult, lookupResult]
    · simp [updateResult, lookupResult, if_neg hk, ih]

theorem lookupResult_updateResult_ne (r : List (RunId × String)) (id : RunId)
    (v : String) (x : RunId) (hx : x ≠ id) :
    lookupResult (updateResult r id v) x = lookupResult r x := by
  induction r with
  | nil => simp [updateResult, lookupResult, Ne.symm hx]
  | cons hd tl ih =>
    obtain ⟨k, w⟩ := hd
    by_cases hk : k = id
    · subst hk
      simp [updateResult, lookupResult, Ne.symm hx]
    · by_cases hkx : k = x
      · subst hkx
        simp [updateResult, lookupResult, if_neg hk]
      · simp [updateResult, lookupResult, if_neg hk, if_neg hkx, ih]

theorem updateResult_append (r : List (RunId × String)) (id : RunId) (v : String)
    (h : id ∉ r.map Prod.fst) : updateResult r id v = r ++ [(id, v)] := by
  induction r with
  | nil => simp [updateResult]
  | cons hd tl ih =>
    obtain ⟨k, w⟩ := hd
    simp only [List.map_cons, List.mem_cons] at h
    push_neg at h
    simp [updateResult, Ne.symm h.1, ih h.2]

theorem updateResult_eq_of_mem (r : List (RunId × String)) (id : RunId) (v : String)
    (hmem : (id, v) ∈ r) (hnd : (r.map Prod.fst).Nodup) : updateResult r id v = r := by
  induction r with
  | nil => simp at hmem
  | cons hd tl ih =>
    obtain ⟨k, w⟩ := hd
    simp only [List.map_cons, List.nodup_cons] at hnd
    rcases List.mem_cons.mp hmem with h1 | h1
    · simp only [Prod.mk.injEq] at h1
      obtain ⟨hk, hv⟩ := h1
      subst hk
      subst hv
      simp [updateResult]
    · have hk : k ≠ id := by
        intro hk
        exact hnd.1 (hk ▸ (List.mem_map.mpr ⟨(id, v), h1, rfl⟩))
      simp [updateResult, hk, ih h1 hnd.2]

end ResultsDict

section ScanOnce

theorem scanOnce_nil (poll : RunId → Except Unit StateType)
    (results : List (RunId × String)) : scanOnce poll [] results = .ok ([], results, 0) :=
  rfl

theorem scanOnce_pending_sub (poll : RunId → Except Unit StateType) :
    ∀ (pending : List RunId) (results : List (RunId × String)) (p : List RunId)
      (r : List (RunId × String)) (n : Nat),
      scanOnce poll pending results = .ok (p, r, n) →
      ∀ id ∈ p, id ∈ pending ∧ ∃ st, poll id = .ok st ∧ st.isFinal = false := by
  intro pending
  induction pending with
  | nil =>
    intro results p r n h id hid
    simp only [scanOnce, Except.ok.injEq, Prod.mk.injEq] at h
    obtain ⟨hp, -, -⟩ := h
    subst hp
    simp at hid
  | cons hd rest ih =>
    intro results p r n h id hid
    cases hpoll : poll hd with
    | error e => simp [scanOnce, hpoll] at h
    | ok st =>
      by_cases hf : st.isFinal = true
      · cases hrec : scanOnce poll rest (updateResult results hd st.name) with
        | error x => simp [scanOnce, hpoll, hf, hrec] at h
        | ok x =>
          obtain ⟨p1, r1, n1⟩ := x
          simp only [scanOnce, hpoll, hf, if_true, hrec, Except.ok.injEq,
            Prod.mk.injEq] at h
          obtain ⟨hp, -, -⟩ := h
          subst hp
          obtain ⟨hmem, hst⟩ := ih _ _ _ _ hrec id hid
          exact ⟨List.mem_cons_of_mem _ hmem, hst⟩
      · cases hrec : scanOnce poll rest results with
        | error x => simp [scanOnce, hpoll, hf, hrec] at h
        | ok x =>
          obtain ⟨p1, r1, n1⟩ := x
          simp only [scanOnce, hpoll, hf, if_false, Bool.false_eq_true, if_neg,
            hrec, Except.ok.injEq, Prod.mk.injEq] at h
          obtain ⟨hp, -, -⟩ := h
          subst hp
          rcases List.mem_cons.mp hid with h1 | h1
          · subst h1
            exact ⟨List.mem_cons_self _ _, st, hpoll, by simpa using hf⟩
          · obtain ⟨hmem, hst⟩ := ih _ _ _ _ hrec id h1
            exact ⟨List.mem_cons_of_mem _ hmem, hst⟩

theorem scanOnce_mem_or (poll : RunId → Except Unit StateType) :
    ∀ (pending : List RunId) (results : List (RunId × String)) (p : List RunId)
      (r : List (RunId × String)) (n : Nat),
      scanOnce poll pending results = .ok (p, r, n) →
      ∀ id ∈ pending, id ∈ p ∨ ∃ st, poll id = .ok st ∧ st.isFinal = true := by
  intro pending
  induction pending with
  | nil =>
    intro results p r n h id hid
    simp at hid
  | cons hd rest ih =>
    intro results p r n h id hid
    cases hpoll : poll hd with
    | error e => simp [scanOnce, hpoll] at h
    | ok st =>
      by_cases hf : st.isFinal = true
      · cases hrec : scanOnce poll rest (updateResult results hd st.name) with
        | error x => simp [scanOnce, hpoll, hf, hrec] at h
        | ok x =>
          obtain ⟨p1, r1, n1⟩ := x
          simp only [scanOnce, hpoll, hf, if_true, hrec, Except.ok.injEq,
            Prod.mk.injEq] at h
          obtain ⟨hp, -, -⟩ := h
          subst hp
          rcases List.mem_cons.mp hid with h1 | h1
          · exact Or.inr ⟨st, h1 ▸ hpoll, hf⟩
          · exact ih _ _ _ _ hrec id h1
      · cases hrec : scanOnce poll rest results with
        | error x => simp [scanOnce, hpoll, hf, hrec] at h
        | ok x =>
          obtain ⟨p1, r1, n1⟩ := x
          simp only [scanOnce, hpoll, hf, if_false, Bool.false_eq_true, if_neg,
            hrec, Except.ok.injEq, Prod.mk.injEq] at h
          obtain ⟨hp, -, -⟩ := h
          subst hp
          rcases List.mem_cons.mp hid with h1 | h1
          · exact Or.inl (h1 ▸ List.mem_cons_self _ _)
          · rcases ih _ _ _ _ hrec id h1 with h2 | h2
            · exact Or.inl (List.mem_cons_of_mem _ h2)
            · exact Or.inr h2

theorem scanOnce_keys_mem (poll : RunId → Except Unit StateType) :
    ∀ (pending : List RunId) (results : List (RunId × String)) (p : List RunId)
      (r : List (RunId × String)) (n : Nat),
      scanOnce poll pending results = .ok (p, r, n) →
      ∀ x, (x ∈ r.map Prod.fst ∨ x ∈ p) ↔ (x ∈ results.map Prod.fst ∨ x ∈ pending) := by
  intro pending
  induction pending with
  | nil =>
    intro results p r n h x
    simp only [scanOnce, Except.ok.injEq, Prod.mk.injEq] at h
    obtain ⟨hp, hr, -⟩ := h
    subst hp
    subst hr
    rfl
  | cons hd rest ih =>
    intro results p r n h x
    cases hpoll : poll hd with
    | error e => simp [scanOnce, hpoll] at h
    | ok st =>
      by_cases hf : st.isFinal = true
      · cases hrec : scanOnce poll rest (updateResult results hd st.name) with
        | error y => simp [scanOnce, hpoll, hf, hrec] at h
        | ok y =>
          obtain ⟨p1, r1, n1⟩ := y
          simp only [scanOnce, hpoll, hf, if_true, hrec, Except.ok.injEq,
            Prod.mk.injEq] at h
          obtain ⟨hp, hr, -⟩ := h
          subst hp
          subst hr
          have h2 := ih _ _ _ _ hrec x
          rw [h2]
          simp only [mem_keys_updateResult, List.mem_cons]
          tauto
      · cases hrec : scanOnce poll rest results with
        | error y => simp [scanOnce, hpoll, hf, hrec] at h
        | ok y =>
          obtain ⟨p1, r1, n1⟩ := y
          simp only [scanOnce, hpoll, hf, if_false, Bool.false_eq_true, if_neg,
            hrec, Except.ok.injEq, Prod.mk.injEq] at h
          obtain ⟨hp, hr, -⟩ := h
          subst hp
          subst hr
          have h2 := ih _ _ _ _ hrec x
          simp only [List.mem_cons]
          tauto

theorem scanOnce_nodup_keys (poll : RunId → Except Unit StateType) :
    ∀ (pending : List RunId) (results : List (RunId × String)) (p : List RunId)
      (r : List (RunId × String)) (n : Nat),
      scanOnce poll pending results = .ok (p, r, n) →
      (results.map Prod.fst).Nodup → (r.map Prod.fst).Nodup := by
  intro pending
  induction pending with
  | nil =>
    intro results p r n h hnd
    simp only [scanOnce, Except.ok.injEq, Prod.mk.injEq] at h
    obtain ⟨-, hr, -⟩ := h
    subst hr
    exact hnd
  | cons hd rest ih =>
    intro results p r n h hnd
    cases hpoll : poll hd with
    | error e => simp [scanOnce, hpoll] at h
    | ok st =>
      by_cases hf : st.isFinal = true
      · cases hrec : scanOnce poll rest (updateResult results hd st.name) with
        | error y => simp [scanOnce, hpoll, hf, hrec] at h
        | ok y =>
          obtain ⟨p1, r1, n1⟩ := y
          simp only [scanOnce, hpoll, hf, if_true, hrec, Except.ok.injEq,
            Prod.mk.injEq] at h
          obtain ⟨-, hr, -⟩ := h
          subst hr
          exact ih _ _ _ _ hrec (nodup_keys_updateResult _ _ _ hnd)
      · cases hrec : scanOnce poll rest results with
        | error y => simp [scanOnce, hpoll, hf, hrec] at h
        | ok y =>
          obtain ⟨p1, r1, n1⟩ := y
          simp only [scanOnce, hpoll, hf, if_false, Bool.false_eq_true, if_neg,
            hrec, Except.ok.injEq, Prod.mk.injEq] at h
          obtain ⟨-, hr, -⟩ := h
          subst hr
          exact ih _ _ _ _ hrec hnd

theorem scanOnce_lookup_stable (poll : RunId → Except Unit StateType) :
    ∀ (pending : List RunId) (results : List (RunId × String)) (p : List RunId)
      (r : List (RunId × String)) (n : Nat),
      scanOnce poll pending results = .ok (p, r, n) →
      ∀ id, id ∉ pending → lookupResult r id = lookupResult results id := by
  intro pending
  induction pending with
  | nil =>
    intro results p r n h id _
    simp only [scanOnce, Except.ok.injEq, Prod.mk.injEq] at h
    obtain ⟨-, hr, -⟩ := h
    subst hr
    rfl
  | cons hd rest ih =>
    intro results p r n h id hid
    simp only [List.mem_cons, not_or] at hid
    cases hpoll : poll hd with
    | error e => simp [scanOnce, hpoll] at h
    | ok st =>
      by_cases hf : st.isFinal = true
      · cases hrec : scanOnce poll rest (updateResult results hd st.name) with
        | error y => simp [scanOnce, hpoll, hf, hrec] at h
        | ok y =>
          obtain ⟨p1, r1, n1⟩ := y
          simp only [scanOnce, hpoll, hf, if_true, hrec, Except.ok.injEq,
            Prod.mk.injEq] at h
          obtain ⟨-, hr, -⟩ := h
          subst hr
          rw [ih _ _ _ _ hrec id hid.2]
          exact lookupResult_updateResult_ne _ _ _ _ hid.1
      · cases hrec : scanOnce poll rest results with
        | error y => simp [scanOnce, hpoll, hf, hrec] at h
        | ok y =>
          obtain ⟨p1, r1, n1⟩ := y
          simp only [scanOnce, hpoll, hf, if_false, Bool.false_eq_true, if_neg,
            hrec, Except.ok.injEq, Prod.mk.injEq] at h
          obtain ⟨-, hr, -⟩ := h
          subst hr
          exact ih _ _ _ _ hrec id hid.2

theorem scanOnce_lookup_final (poll : RunId → Except Unit StateType) :
    ∀ (pending : List RunId) (results : List (RunId × String)) (p : List RunId)
      (r : List (RunId × String)) (n : Nat),
      scanOnce poll pending results = .ok (p, r, n) →
      ∀ id st, id ∈ pending → poll id = .ok st → st.isFinal = true →
        lookupResult r id = some st.name := by
  intro pending
  induction pending with
  | nil =>
    intro results p r n h id st hid
    simp at hid
  | cons hd rest ih =>
    intro results p r n h id st hid hpollid hfid
    cases hpoll : poll hd with
    | error e => simp [scanOnce, hpoll] at h
    | ok st2 =>
      by_cases hf : st2.isFinal = true
      · cases hrec : scanOnce poll rest (updateResult results hd st2.name) with
        | error y => simp [scanOnce, hpoll, hf, hrec] at h
        | ok y =>
          obtain ⟨p1, r1, n1⟩ := y
          simp only [scanOnce, hpoll, hf, if_true, hrec, Except.ok.injEq,
            Prod.mk.injEq] at h
          obtain ⟨-, hr, -⟩ := h
          subst hr
          by_cases hmem : id ∈ rest
          · exact ih _ _ _ _ hrec id st hmem hpollid hfid
          · have hhd : id = hd := by
              rcases List.mem_cons.mp hid with h1 | h1
              · exact h1
              · exact absurd h1 hmem
            subst hhd
            have hst : st2 = st := by
              rw [hpollid] at hpoll
              exact (Except.ok.injEq .. ▸ hpoll).symm
            rw [scanOnce_lookup_stable poll _ _ _ _ _ hrec id hmem, hst,
              lookupResult_updateResult_self]
      · cases hrec : scanOnce poll rest results with
        | error y => simp [scanOnce, hpoll, hf, hrec] at h
        | ok y =>
          obtain ⟨p1, r1, n1⟩ := y
          simp only [scanOnce, hpoll, hf, if_false, Bool.false_eq_true, if_neg,
            hrec, Except.ok.injEq, Prod.mk.injEq] at h
          obtain ⟨-, hr, -⟩ := h
          subst hr
          rcases List.mem_cons.mp hid with h1 | h1
          · subst h1
            rw [hpollid] at hpoll
            have hst : st2 = st := (Except.ok.injEq .. ▸ hpoll).symm
            subst hst
            exact absurd hfid (by simpa using hf)
          · exact ih _ _ _ _ hrec id st h1 hpollid hfid

theorem scanOnce_ok_of_pure (poll : RunId → Except Unit StateType) :
    ∀ (pending : List RunId) (results : List (RunId × String)),
      (∀ id ∈ pending, ∃ st, poll id = .ok st) →
      ∃ p r n, scanOnce poll pending results = .ok (p, r, n) := by
  intro pending
  induction pending with
  | nil => intro results _; exact ⟨[], results, 0, rfl⟩
  | cons hd rest ih =>
    intro results hpure
    obtain ⟨st, hpoll⟩ := hpure hd (List.mem_cons_self _ _)
    have hrest : ∀ id ∈ rest, ∃ st, poll id = .ok st :=
      fun id hid => hpure id (List.mem_cons_of_mem _ hid)
    by_cases hf : st.isFinal = true
    · obtain ⟨p1, r1, n1, hrec⟩ := ih (updateResult results hd st.name) hrest
      exact ⟨p1, r1, n1 + 1, by simp [scanOnce, hpoll, hf, hrec]⟩
    · obtain ⟨p1, r1, n1, hrec⟩ := ih results hrest
      exact ⟨hd :: p1, r1, n1 + 1, by simp [scanOnce, hpoll, hf, hrec]⟩

theorem scanOnce_error_cons (poll : RunId → Except Unit StateType)
    (id : RunId) (rest : List RunId) (results : List (RunId × String))
    (h : poll id = .error ()) :
    scanOnce poll (id :: rest) results = .error (results, 1) := by
  simp [scanOnce, h]

theorem scanOnce_allFinal (poll : RunId → Except Unit StateType)
    (stOf : RunId → StateType) :
    ∀ (pending : List RunId) (results : List (RunId × String)),
      (∀ id ∈ pending, poll id = .ok (stOf id) ∧ (stOf id).isFinal = true) →
      scanOnce poll pending results =
        .ok ([], pending.foldl (fun r id => updateResult r id (stOf id).name) results,
          pending.length) := by
  intro pending
  induction pending with
  | nil => intro results _; rfl
  | cons hd rest ih =>
    intro results hall
    obtain ⟨hpoll, hf⟩ := hall hd (List.mem_cons_self _ _)
    have hrest := fun id hid => hall id (List.mem_cons_of_mem _ hid)
    have hrec := ih (updateResult results hd (stOf hd).name) hrest
    simp [scanOnce, hpoll, hf, hrec, List.length_cons]

end ScanOnce

section WaitLoop

theorem waitLoop_nil (oracle : Oracle) (fuel t : Nat) (results : List (RunId × String))
    (polls sleeps : Nat) :
    waitLoop oracle fuel t [] results polls sleeps = .done results polls sleeps t := by
  cases fuel <;> simp [waitLoop]

theorem waitLoop_done_t_le (oracle : Oracle) :
    ∀ (fuel t0 : Nat) (pending : List RunId) (results : List (RunId × String))
      (polls sleeps : Nat) (r : List (RunId × String)) (p sl tE : Nat),
      waitLoop oracle fuel t0 pending results polls sleeps = .done r p sl tE →
      t0 ≤ tE := by
  intro fuel
  induction fuel with
  | zero =>
    intro t0 pending results polls sleeps r p sl tE h
    by_cases hpe : pending.isEmpty = true
    · simp only [waitLoop, hpe, if_true, WaitOutcome.done.injEq] at h
      omega
    · simp [waitLoop, hpe] at h
  | succ fuel ih =>
    intro t0 pending results polls sleeps r p sl tE h
    by_cases hpe : pending.isEmpty = true
    · simp only [waitLoop, hpe, if_true, WaitOutcome.done.injEq] at h
      omega
    · cases hscan : scanOnce (oracle t0) pending results with
      | error x =>
        obtain ⟨r1, n1⟩ := x
        simp [waitLoop, hpe, hscan] at h
      | ok x =>
        obtain ⟨p1, r1, n1⟩ := x
        simp only [waitLoop, hpe, if_false, Bool.false_eq_true, if_neg, hscan] at h
        exact le_trans (Nat.le_succ t0) (ih _ _ _ _ _ _ _ _ _ h)

theorem waitLoop_done_mem_final (oracle : Oracle) :
    ∀ (fuel t0 : Nat) (pending : List RunId) (results : List (RunId × String))
      (polls sleeps : Nat) (r : List (RunId × String)) (p sl tE : Nat),
      waitLoop oracle fuel t0 pending results polls sleeps = .done r p sl tE →
      ∀ id ∈ pending, ∃ t st, t0 ≤ t ∧ t < tE ∧ oracle t id = .ok st ∧
        st.isFinal = true := by
  intro fuel
  induction fuel with
  | zero =>
    intro t0 pending results polls sleeps r p sl tE h id hid
    by_cases hpe : pending.isEmpty = true
    · rw [List.isEmpty_iff] at hpe
      subst hpe
      simp at hid
    · simp [waitLoop, hpe] at h
  | succ fuel ih =>
    intro t0 pending results polls sleeps r p sl tE h id hid
    by_cases hpe : pending.isEmpty = true
    · rw [List.isEmpty_iff] at hpe
      subst hpe
      simp at hid
    · cases hscan : scanOnce (oracle t0) pending results with
      | error x =>
        obtain ⟨r1, n1⟩ := x
        simp [waitLoop, hpe, hscan] at h
      | ok x =>
        obtain ⟨p1, r1, n1⟩ := x
        simp only [waitLoop, hpe, if_false, Bool.false_eq_true, if_neg, hscan] at h
        have htE : t0 + 1 ≤ tE := waitLoop_done_t_le oracle _ _ _ _ _ _ _ _ _ _ h
        rcases scanOnce_mem_or (oracle t0) pending results p1 r1 n1 hscan id hid with
          hmem | ⟨st, hok, hfin⟩
        · obtain ⟨t, st, h1, h2, h3, h4⟩ := ih _ _ _ _ _ _ _ _ _ h id hmem
          exact ⟨t, st, by omega, h2, h3, h4⟩
        · exact ⟨t0, st, le_refl _, by omega, hok, hfin⟩

theorem waitLoop_done_keys (oracle : Oracle) :
    ∀ (fuel t0 : Nat) (pending : List RunId) (results : List (RunId × String))
      (polls sleeps : Nat) (r : List (RunId × String)) (p sl tE : Nat),
      waitLoop oracle fuel t0 pending results polls sleeps = .done r p sl tE →
      (results.map Prod.fst).Nodup →
      (r.map Prod.fst).Nodup ∧
        ∀ x, x ∈ r.map Prod.fst ↔ x ∈ results.map Prod.fst ∨ x ∈ pending := by
  intro fuel
  induction fuel with
  | zero =>
    intro t0 pending results polls sleeps r p sl tE h hnd
    by_cases hpe : pending.isEmpty = true
    · rw [List.isEmpty_iff] at hpe
      subst hpe
      simp only [waitLoop, List.isEmpty_nil, if_true, WaitOutcome.done.injEq] at h
      obtain ⟨hr, -, -, -⟩ := h
      subst hr
      exact ⟨hnd, by simp⟩
    · simp [waitLoop, hpe] at h
  | succ fuel ih =>
    intro t0 pending results polls sleeps r p sl tE h hnd
    by_cases hpe : pending.isEmpty = true
    · rw [List.isEmpty_iff] at hpe
      subst hpe
      simp only [waitLoop, List.isEmpty_nil, if_true, WaitOutcome.done.injEq] at h
      obtain ⟨hr, -, -, -⟩ := h
      subst hr
      exact ⟨hnd, by simp⟩
    · cases hscan : scanOnce (oracle t0) pending results with
      | error x =>
        obtain ⟨r1, n1⟩ := x
        simp [waitLoop, hpe, hscan] at h
      | ok x =>
        obtain ⟨p1, r1, n1⟩ := x
        simp only [waitLoop, hpe, if_false, Bool.false_eq_true, if_neg, hscan] at h
        have hnd1 := scanOnce_nodup_keys (oracle t0) pending results p1 r1 n1 hscan hnd
        obtain ⟨hnd2, hiff⟩ := ih _ _ _ _ _ _ _ _ _ h hnd1
        refine ⟨hnd2, fun x => ?_⟩
        have hk := scanOnce_keys_mem (oracle t0) pending results p1 r1 n1 hscan x
        have hsub := scanOnce_pending_sub (oracle t0) pending results p1 r1 n1 hscan
        constructor
        · intro hx
          rcases (hiff x).mp hx with h1 | h1
          · rcases hk.mp (Or.inl h1) with h2 | h2
            · exact Or.inl h2
            · exact Or.inr h2
          · exact Or.inr (hsub x h1).1
        · intro hx
          rcases hk.mpr (by tauto) with h1 | h1
          · exact (hiff x).mpr (Or.inl h1)
          · exact (hiff x).mpr (Or.inr h1)

theorem waitLoop_lookup_stable (oracle : Oracle) :
    ∀ (fuel t0 : Nat) (pending : List RunId) (results : List (RunId × String))
      (polls sleeps : Nat) (r : List (RunId × String)) (p sl tE : Nat),
      waitLoop oracle fuel t0 pending results polls sleeps = .done r p sl tE →
      ∀ id, id ∉ pending → lookupResult r id = lookupResult results id := by
  intro fuel
  induction fuel with
  | zero =>
    intro t0 pending results polls sleeps r p sl tE h id _
    by_cases hpe : pending.isEmpty = true
    · simp only [waitLoop, hpe, if_true, WaitOutcome.done.injEq] at h
      obtain ⟨hr, -, -, -⟩ := h
      subst hr
      rfl
    · simp [waitLoop, hpe] at h
  | succ fuel ih =>
    intro t0 pending results polls sleeps r p sl tE h id hid
    by_cases hpe : pending.isEmpty = true
    · simp only [waitLoop, hpe, if_true, WaitOutcome.done.injEq] at h
      obtain ⟨hr, -, -, -⟩ := h
      subst hr
      rfl
    · cases hscan : scanOnce (oracle t0) pending results with
      | error x =>
        obtain ⟨r1, n1⟩ := x
        simp [waitLoop, hpe, hscan] at h
      | ok x =>
        obtain ⟨p1, r1, n1⟩ := x
        simp only [waitLoop, hpe, if_false, Bool.false_eq_true, if_neg, hscan] at h
        have hnp1 : id ∉ p1 := fun hmem =>
          hid (scanOnce_pending_sub (oracle t0) pending results p1 r1 n1 hscan id hmem).1
        rw [ih _ _ _ _ _ _ _ _ _ h id hnp1]
        exact scanOnce_lookup_stable (oracle t0) pending results p1 r1 n1 hscan id hid

theorem waitLoop_spin_of_stuck (oracle : Oracle) (hpure : PureOracle oracle)
    (idS : RunId) (hstuck : NeverFinal oracle idS) :
    ∀ (fuel t0 : Nat) (pending : List RunId) (results : List (RunId × String))
      (polls sleeps : Nat), idS ∈ pending →
      (waitLoop oracle fuel t0 pending results polls sleeps).isSpin = true := by
  intro fuel
  induction fuel with
  | zero =>
    intro t0 pending results polls sleeps hmem
    have hpe : ¬ pending.isEmpty = true := by
      rw [List.isEmpty_iff]
      exact List.ne_nil_of_mem hmem
    simp [waitLoop, hpe, WaitOutcome.isSpin]
  | succ fuel ih =>
    intro t0 pending results polls sleeps hmem
    have hpe : ¬ pending.isEmpty = true := by
      rw [List.isEmpty_iff]
      exact List.ne_nil_of_mem hmem
    obtain ⟨p1, r1, n1, hscan⟩ :=
      scanOnce_ok_of_pure (oracle t0) pending results (fun id _ => hpure t0 id)
    have hmem1 : idS ∈ p1 := by
      rcases scanOnce_mem_or (oracle t0) pending results p1 r1 n1 hscan idS hmem with
        h1 | ⟨st, hok, hfin⟩
      · exact h1
      · exact absurd hfin (by simp [hstuck t0 st hok])
    simp only [waitLoop, hpe, if_false, Bool.false_eq_true, if_neg, hscan]
    exact ih _ _ _ _ _ hmem1

theorem waitLoop_done_of_final (oracle : Oracle) (hpure : PureOracle oracle)
    (hmono : MonoFinal oracle) :
    ∀ (fuel t0 : Nat) (pending : List RunId) (results : List (RunId × String))
      (polls sleeps : Nat),
      (∀ id ∈ pending, ∃ t st, t < t0 + (fuel + 1) ∧ oracle t id = .ok st ∧
        st.isFinal = true) →
      ∃ r p sl tE,
        waitLoop oracle (fuel + 1) t0 pending results polls sleeps = .done r p sl tE ∧
        ∀ id ∈ pending, ∃ st, st.isFinal = true ∧ lookupResult r id = some st.name ∧
          ∃ t, oracle t id = .ok st := by
  intro fuel
  induction fuel with
  | zero =>
    intro t0 pending results polls sleeps hfin
    by_cases hpe : pending.isEmpty = true
    · rw [List.isEmpty_iff] at hpe
      subst hpe
      exact ⟨results, polls, sleeps, t0, waitLoop_nil oracle 1 t0 results polls sleeps,
        by simp⟩
    · obtain ⟨p1, r1, n1, hscan⟩ :=
        scanOnce_ok_of_pure (oracle t0) pending results (fun id _ => hpure t0 id)
      have hp1 : p1 = [] := by
        rw [List.eq_nil_iff_forall_not_mem]
        intro id hmem
        obtain ⟨hpend, st, hok, hnf⟩ :=
          scanOnce_pending_sub (oracle t0) pending results p1 r1 n1 hscan id hmem
        obtain ⟨t, st2, ht, hok2, hfin2⟩ := hfin id hpend
        have hle : t ≤ t0 := by omega
        have := hmono t t0 id st2 hle hok2 hfin2
        rw [hok] at this
        have hst : st = st2 := (Except.ok.injEq .. ▸ this)
        rw [hst, hfin2] at hnf
        simp at hnf
      subst hp1
      refine ⟨r1, polls + n1, sleeps, t0 + 1, ?_, ?_⟩
      · simp only [waitLoop, hpe, if_false, Bool.false_eq_true, if_neg, hscan,
          List.isEmpty_nil, if_true]
      · intro id hid
        rcases scanOnce_mem_or (oracle t0) pending results [] r1 n1 hscan id hid with
          h1 | ⟨st, hok, hfin2⟩
        · simp at h1
        · exact ⟨st, hfin2,
            scanOnce_lookup_final (oracle t0) pending results [] r1 n1 hscan id st hid
              hok hfin2, t0, hok⟩
  | succ fuel ih =>
    intro t0 pending results polls sleeps hfin
    by_cases hpe : pending.isEmpty = true
    · rw [List.isEmpty_iff] at hpe
      subst hpe
      exact ⟨results, polls, sleeps, t0,
        waitLoop_nil oracle (fuel + 2) t0 results polls sleeps, by simp⟩
    · obtain ⟨p1, r1, n1, hscan⟩ :=
        scanOnce_ok_of_pure (oracle t0) pending results (fun id _ => hpure t0 id)
      have hfin1 : ∀ id ∈ p1, ∃ t st, t < (t0 + 1) + (fuel + 1) ∧
          oracle t id = .ok st ∧ st.isFinal = true := by
        intro id hmem
        obtain ⟨hpend, st, hok, hnf⟩ :=
          scanOnce_pending_sub (oracle t0) pending results p1 r1 n1 hscan id hmem
        obtain ⟨t, st2, ht, hok2, hfin2⟩ := hfin id hpend
        have hgt : t0 < t := by
          by_contra hc
          have hle : t ≤ t0 := by omega
          have := hmono t t0 id st2 hle hok2 hfin2
          rw [hok] at this
          have hst : st = st2 := (Except.ok.injEq .. ▸ this)
          rw [hst, hfin2] at hnf
          simp at hnf
        exact ⟨t, st2, by omega, hok2, hfin2⟩
      obtain ⟨r, p, sl, tE, hloop, hvals⟩ :=
        ih (t0 + 1) p1 r1 (polls + n1) (if p1.isEmpty then sleeps else sleeps + 1) hfin1
      refine ⟨r, p, sl, tE, ?_, ?_⟩
      · simp only [waitLoop, hpe, if_false, Bool.false_eq_true, if_neg, hscan]
        exact hloop
      · intro id hid
        by_cases hmem1 : id ∈ p1
        · exact hvals id hmem1
        · rcases scanOnce_mem_or (oracle t0) pending results p1 r1 n1 hscan id hid with
            h1 | ⟨st, hok, hfin2⟩
          · exact absurd h1 hmem1
          · refine ⟨st, hfin2, ?_, t0, hok⟩
            rw [waitLoop_lookup_stable oracle _ _ _ _ _ _ _ _ _ _ hloop id hmem1]
            exact scanOnce_lookup_final (oracle t0) pending results p1 r1 n1 hscan id st
              hid hok hfin2

theorem waitLoop_allFinal (oracle : Oracle) (stOf : RunId → StateType) (fuel t0 : Nat)
    (pending : List RunId) (results : List (RunId × String))
    (hall : ∀ id ∈ pending, oracle t0 id = .ok (stOf id) ∧ (stOf id).isFinal = true)
    (hne : pending ≠ []) :
    waitLoop oracle (fuel + 1) t0 pending results 0 0 =
      .done (pending.foldl (fun r id => updateResult r id (stOf id).name) results)
        pending.length 0 (t0 + 1) := by
  have hpe : ¬ pending.isEmpty = true := by
    rw [List.isEmpty_iff]
    exact hne
  have hscan := scanOnce_allFinal (oracle t0) stOf pending results hall
  simp only [waitLoop, hpe, if_false, Bool.false_eq_true, if_neg, hscan,
    List.isEmpty_nil, if_true, Nat.zero_add]
  exact waitLoop_nil oracle fuel (t0 + 1) _ _ _

end WaitLoop

section FoldUpdate

theorem foldl_updateResult_fresh (stN : RunId → String) :
    ∀ (pending : List RunId) (results : List (RunId × String)),
      pending.Nodup → (∀ id ∈ pending, id ∉ results.map Prod.fst) →
      pending.foldl (fun r id => updateResult r id (stN id)) results =
        results ++ pending.map (fun id => (id, stN id)) := by
  intro pending
  induction pending with
  | nil => intro results _ _; simp
  | cons hd rest ih =>
    intro results hnd hdisj
    have hstep : updateResult results hd (stN hd) = results ++ [(hd, stN hd)] :=
      updateResult_append results hd (stN hd) (hdisj hd (List.mem_cons_self _ _))
    have hnd2 := (List.nodup_cons.mp hnd).2
    have hnotin := (List.nodup_cons.mp hnd).1
    have hdisj2 : ∀ id ∈ rest, id ∉ (results ++ [(hd, stN hd)]).map Prod.fst := by
      intro id hid
      simp only [List.map_append, List.mem_append, List.map_cons, List.map_nil,
        List.mem_singleton, not_or]
      exact ⟨hdisj id (List.mem_cons_of_mem _ hid), by
        intro hc
        exact hnotin (hc ▸ hid)⟩
    simp only [List.foldl_cons, hstep, ih _ hnd2 hdisj2, List.map_cons,
      List.append_assoc, List.singleton_append]

theorem foldl_updateResult_id (stN : RunId → String) :
    ∀ (pending : List RunId) (results : List (RunId × String)),
      (results.map Prod.fst).Nodup → (∀ id ∈ pending, (id, stN id) ∈ results) →
      pending.foldl (fun r id => updateResult r id (stN id)) results = results := by
  intro pending
  induction pending with
  | nil => intro results _ _; rfl
  | cons hd rest ih =>
    intro results hnd hmem
    have hstep : updateResult results hd (stN hd) = results :=
      updateResult_eq_of_mem results hd (stN hd) (hmem hd (List.mem_cons_self _ _)) hnd
    simp only [List.foldl_cons, hstep]
    exact ih results hnd (fun id hid => hmem id (List.mem_cons_of_mem _ hid))

end FoldUpdate

section WaitHelpers

theorem wait_of_waitLoop_done (s : FlowSubmission) (oracle : Oracle) (fuel t0 : Nat)
    (r : List (RunId × String)) (p sl tE : Nat) (hne : s.run_ids ≠ [])
    (h : waitLoop oracle fuel t0 s.run_ids s.results 0 0 = .done r p sl tE) :
    s.wait oracle fuel t0 = (.done r p sl tE, { s with results := r }) := by
  unfold FlowSubmission.wait
  rw [if_neg (by simpa [List.isEmpty_iff] using hne), h]

theorem wait_done_elim (s : FlowSubmission) (oracle : Oracle) (fuel t0 : Nat)
    (r : List (RunId × String)) (p sl tE : Nat) (s2 : FlowSubmission)
    (hne : s.run_ids ≠ [])
    (h : s.wait oracle fuel t0 = (.done r p sl tE, s2)) :
    waitLoop oracle fuel t0 s.run_ids s.results 0 0 = .done r p sl tE ∧
      s2 = { s with results := r } := by
  unfold FlowSubmission.wait at h
  rw [if_neg (by simpa [List.isEmpty_iff] using hne)] at h
  cases hw : waitLoop oracle fuel t0 s.run_ids s.results 0 0 with
  | done a b c d =>
    rw [hw] at h
    simp only [Prod.mk.injEq, WaitOutcome.done.injEq] at h
    obtain ⟨⟨h1, h2, h3, h4⟩, h5⟩ := h
    subst h1
    subst h2
    subst h3
    subst h4
    exact ⟨rfl, h5.symm⟩
  | raised a b c =>
    rw [hw] at h
    simp at h
  | spin a b c d e =>
    rw [hw] at h
    simp at h

theorem wait_isSpin_of_waitLoop (s : FlowSubmission) (oracle : Oracle) (fuel t0 : Nat)
    (hne : s.run_ids ≠ [])
    (h : (waitLoop oracle fuel t0 s.run_ids s.results 0 0).isSpin = true) :
    ((s.wait oracle fuel t0).1).isSpin = true := by
  unfold FlowSubmission.wait
  rw [if_neg (by simpa [List.isEmpty_iff] using hne)]
  cases hw : waitLoop oracle fuel t0 s.run_ids s.results 0 0 with
  | done a b c d =>
    rw [hw] at h
    simp [WaitOutcome.isSpin] at h
  | raised a b c =>
    rw [hw] at h
    simp [WaitOutcome.isSpin] at h
  | spin a b c d e =>
    simp [WaitOutcome.isSpin]

theorem wait_done_keys (s : FlowSubmission) (oracle : Oracle) (fuel t0 : Nat)
    (r : List (RunId × String)) (p sl tE : Nat) (s2 : FlowSubmission)
    (hres : s.results = []) (hnd : s.run_ids.Nodup)
    (hw : s.wait oracle fuel t0 = (.done r p sl tE, s2)) :
    s2.results = r ∧ (r.map Prod.fst).Nodup ∧
      ∀ x, x ∈ r.map Prod.fst ↔ x ∈ s.run_ids := by
  by_cases hne : s.run_ids = []
  · unfold FlowSubmission.wait at hw
    rw [if_pos (by simp [hne])] at hw
    simp only [Prod.mk.injEq, WaitOutcome.done.injEq] at hw
    obtain ⟨⟨h1, -, -, -⟩, h5⟩ := hw
    subst h1
    subst h5
    simp [hres, hne]
  · obtain ⟨hloop, hs2⟩ := wait_done_elim s oracle fuel t0 r p sl tE s2 hne hw
    rw [hres] at hloop
    obtain ⟨hnd2, hiff⟩ := waitLoop_done_keys oracle fuel t0 s.run_ids [] 0 0 r p sl tE
      hloop (by simp)
    subst hs2
    exact ⟨rfl, hnd2, fun x => by simpa using hiff x⟩

theorem countP_add_countP_not {α : Type} (l : List α) (p : α → Bool) :
    l.countP p + l.countP (fun a => !(p a)) = l.length := by
  induction l with
  | nil => rfl
  | cons h t ih =>
    by_cases hp : p h = true
    · simp [List.countP_cons, hp, ← ih]
      omega
    · simp [List.countP_cons, hp, ← ih]
      omega

end WaitHelpers

section DemoFixtures

/-- A backend on which every poll reports `Completed`. -/
def oracleAllCompleted : Oracle := fun _ _ => .ok .Completed

/-- A backend on which run 0 reports `Failed` and every other run
`Completed`. -/
def oraclePreFails : Oracle := fun _ id => .ok (if id = 0 then .Failed else .Completed)

/-- A backend on which run 3 reports `Failed` and every other run
`Completed`. -/
def oracleThirdFails : Oracle := fun _ id => .ok (if id = 3 then .Failed else .Completed)

/-- A backend on which every poll reports the non-terminal `Running`. -/
def oracleStuck : Oracle := fun _ _ => .ok .Running

/-- A backend on which polling run 2 raises a transient query error while
every other run reports `Completed`. -/
def oracleErrSecond : Oracle := fun _ id =>
  if id = 2 then .error () else .ok .Completed

/-- A batch holding the single submitted run 4. -/
def subStuck : FlowSubmission :=
  ((flow_submitter "pre-etl-job/pre-etl-deployment").submit 4).1

/-- A batch holding the single submitted run 9. -/
def subStuck2 : FlowSubmission :=
  ((flow_submitter "sub-etl-job/sub-etl-deployment").submit 9).1

/-- A batch holding the submitted runs 1 and 2. -/
def subPair : FlowSubmission :=
  (((flow_submitter "process-table-etl/process-table-etl-deployment").submit 1).1.submit 2).1

/-- A batch holding the single submitted run 7. -/
def subOne : FlowSubmission :=
  ((flow_submitter "process-table-etl/process-table-etl-deployment").submit 7).1

/-- A batch holding the five submitted runs 1, 2, 3, 4, 5. -/
def subFive : FlowSubmission :=
  { deployment_path := "process-table-etl/process-table-etl-deployment"
  , run_ids := [1, 2, 3, 4, 5]
  , results := [] }

/-- The execution of the v3 `main_etl` on `oracleAllCompleted` with three
fuel units. -/
def runDemo : MainEtlRun :=
  { result := { pre_etl_run_ids := [0]
              , sub_etl_run_ids := [1]
              , final_etl_run_ids := [2]
              , status := "completed" }
  , preResults := [(0, "Completed")]
  , subResults := [(1, "Completed")]
  , finalResults := [(2, "Completed")]
  , tFinalSubmit := 2 }

/-- The execution of the v3 `main_etl` on `oraclePreFails` with three fuel
units: the phase-1 run 0 fails, the rest complete. -/
def runPreFails : MainEtlRun :=
  { result := { pre_etl_run_ids := [0]
              , sub_etl_run_ids := [1]
              , final_etl_run_ids := [2]
              , status := "completed" }
  , preResults := [(0, "Failed")]
  , subResults := [(1, "Completed")]
  , finalResults := [(2, "Completed")]
  , tFinalSubmit := 2 }

end DemoFixtures

/-- A batch holding the single submitted run 2. -/
def subTwoOnly : FlowSubmission :=
  ((flow_submitter "process-table-etl/process-table-etl-deployment").submit 2).1

section ConcurrencyHelpers

theorem any_tag_iff (limits : List (String × Nat)) (tag : String) :
    limits.any (fun p => p.1 = tag) = true ↔ tag ∈ limits.map Prod.fst := by
  rw [List.any_eq_true]
  constructor
  · rintro ⟨q, hq, hdec⟩
    simp only [decide_eq_true_eq] at hdec
    exact List.mem_map.mpr ⟨q, hq, hdec⟩
  · intro h
    obtain ⟨q, hq, hfst⟩ := List.mem_map.mp h
    exact ⟨q, hq, by simp [hfst]⟩

theorem create_limit_of_mem (limits : List (String × Nat)) (tag : String) (mx : Nat)
    (hmem : tag ∈ limits.map Prod.fst) :
    create_concurrency_limit limits tag mx = (limits, .alreadyExists) := by
  have hb : backendCreateConcurrencyLimit limits tag mx =
      (limits, .error "already exists") := by
    unfold backendCreateConcurrencyLimit
    rw [if_pos ((any_tag_iff limits tag).mpr hmem)]
  unfold create_concurrency_limit
  rw [hb]
  show (if mentionsAlreadyExists "already exists" = true
    then (limits, CreateResult.alreadyExists)
    else (limits, CreateResult.raised "already exists")) = (limits, .alreadyExists)
  rw [if_pos (by decide)]

theorem create_limit_of_not_mem (limits : List (String × Nat)) (tag : String) (mx : Nat)
    (hmem : tag ∉ limits.map Prod.fst) :
    create_concurrency_limit limits tag mx = (limits ++ [(tag, mx)], .created) := by
  have hb : backendCreateConcurrencyLimit limits tag mx =
      (limits ++ [(tag, mx)], .ok ()) := by
    unfold backendCreateConcurrencyLimit
    rw [if_neg (fun hc => hmem ((any_tag_iff limits tag).mp hc))]
  unfold create_concurrency_limit
  rw [hb]

theorem create_filter_eq_one (limits : List (String × Nat)) (tag : String) (mx : Nat)
    (hle : (limits.filter (fun q => q.1 = tag)).length ≤ 1) :
    (((create_concurrency_limit limits tag mx).1).filter
      (fun q => q.1 = tag)).length = 1 := by
  by_cases hmem : tag ∈ limits.map Prod.fst
  · rw [create_limit_of_mem limits tag mx hmem]
    show (limits.filter (fun q => q.1 = tag)).length = 1
    obtain ⟨q, hq, hfst⟩ := List.mem_map.mp hmem
    have hqf : q ∈ limits.filter (fun q => q.1 = tag) :=
      List.mem_filter.mpr ⟨hq, by simp [hfst]⟩
    have hpos : 1 ≤ (limits.filter (fun q => q.1 = tag)).length :=
      List.length_pos.mpr (List.ne_nil_of_mem hqf)
    omega
  · rw [create_limit_of_not_mem limits tag mx hmem]
    have hnil : limits.filter (fun q => q.1 = tag) = [] := by
      rw [List.eq_nil_iff_forall_not_mem]
      intro q hq
      obtain ⟨hq1, hq2⟩ := List.mem_filter.mp hq
      simp only [decide_eq_true_eq] at hq2
      exact hmem (List.mem_map.mpr ⟨q, hq1, hq2⟩)
    simp [List.filter_append, hnil]

theorem createAttempts_filter (tag : String) (mx : Nat) :
    ∀ (n : Nat) (limits : List (String × Nat)),
      (limits.filter (fun q => q.1 = tag)).length ≤ 1 → 1 ≤ n →
      ((createAttempts n limits tag mx).filter (fun q => q.1 = tag)).length = 1 := by
  intro n
  induction n with
  | zero =>
    intro limits _ h1
    omega
  | succ n ih =>
    intro limits hle h1
    show ((createAttempts n ((create_concurrency_limit limits tag mx).1) tag mx).filter
      (fun q => q.1 = tag)).length = 1
    by_cases hn : 1 ≤ n
    · exact ih _ (le_of_eq (create_filter_eq_one limits tag mx hle)) hn
    · have hn0 : n = 0 := by omega
      subst hn0
      show (((create_concurrency_limit limits tag mx).1).filter
        (fun q => q.1 = tag)).length = 1
      exact create_filter_eq_one limits tag mx hle

end ConcurrencyHelpers

/-- Claim C8: waiting on an empty handle set returns immediately with an
empty result mapping, performing no `read_flow_run` calls and no sleep —
both for `FlowSubmission.wait` (which returns the literal empty dict) and
for `wait_for_flow_runs` (whose loop body never runs). -/
theorem C8_vacuous_wait :
    (∀ (s : FlowSubmission) (oracle : Oracle) (fuel t0 : Nat), s.run_ids = [] →
      s.wait oracle fuel t0 = (.done [] 0 0 t0, s)) ∧
    (∀ (oracle : Oracle) (fuel t0 : Nat),
      wait_for_flow_runs oracle fuel t0 [] = .done [] 0 0 t0) := by
  constructor
  · intro s oracle fuel t0 h
    unfold FlowSubmission.wait
    rw [if_pos (by simp [h])]
  · intro oracle fuel t0
    exact waitLoop_nil oracle fuel t0 [] 0 0

/-- Witness for C8 at concrete inputs: a fresh batch with no submissions
and an explicit empty id list. -/
theorem C8_vacuous_wait_witness :
    (flow_submitter "final-etl-job/final-etl-deployment").wait oracleAllCompleted 5 9 =
      (.done [] 0 0 9, flow_submitter "final-etl-job/final-etl-deployment") ∧
    wait_for_flow_runs oracleAllCompleted 3 0 [] = .done [] 0 0 0 :=
  ⟨C8_vacuous_wait.1 (flow_submitter "final-etl-job/final-etl-deployment")
      oracleAllCompleted 5 9 rfl,
    C8_vacuous_wait.2 oracleAllCompleted 3 0⟩

/-- Claim C2 (amended): the code has no overall timeout and no
`WaitTimeoutError`.  On a handle set containing an id that never reports a
terminal state (and a backend that never raises), `FlowSubmission.wait`
never returns: for every fuel bound the polling loop is still spinning, so
control never reaches any later phase. -/
theorem C2_wait_has_no_timeout (oracle : Oracle) (s : FlowSubmission) (t0 : Nat)
    (hpure : PureOracle oracle) (hstuck : ∃ id ∈ s.run_ids, NeverFinal oracle id) :
    waitNeverReturns oracle s t0 := by
  obtain ⟨id, hmem, hnf⟩ := hstuck
  intro fuel
  exact wait_isSpin_of_waitLoop s oracle fuel t0 (List.ne_nil_of_mem hmem)
    (waitLoop_spin_of_stuck oracle hpure id hnf fuel t0 s.run_ids s.results 0 0 hmem)

/-- Witness for C2 at a concrete input: run 9 is forever `Running`, so its
batch's wait spins for every fuel bound. -/
theorem C2_wait_has_no_timeout_witness : waitNeverReturns oracleStuck subStuck2 0 :=
  C2_wait_has_no_timeout oracleStuck subStuck2 0 (fun _ _ => ⟨.Running, rfl⟩)
    ⟨9, by decide, fun t st h => by
      simp only [oracleStuck, Except.ok.injEq] at h
      subst h
      rfl⟩

/-- Counterexample to C2 as stated: on a handle (run 4) that never reports
a terminal state, the wait does not terminate with any timeout error — it
simply never terminates.  There is no caller-supplied overall timeout, no
`WaitTimeoutError` and no `AbortedOnFatal` anywhere in the code. -/
theorem C2_counterexample : waitNeverReturns oracleStuck subStuck 0 := by
  intro fuel
  exact wait_isSpin_of_waitLoop subStuck oracleStuck fuel 0 (by decide)
    (waitLoop_spin_of_stuck oracleStuck (fun _ _ => ⟨.Running, rfl⟩) 4
      (fun t st h => by
        simp only [oracleStuck, Except.ok.injEq] at h
        subst h
        rfl)
      fuel 0 subStuck.run_ids subStuck.results 0 0 (by decide))

/-- Claim C6 (amended): a transient query error raised by `read_flow_run`
propagates out of the wait immediately — there is no `try`/`except` in the
polling loop, so the error aborts the wait for all ids and is surfaced to
the caller; nothing is retried.  Stated for an error on the first pending
id of the scan. -/
theorem C6_transient_error_aborts_wait (oracle : Oracle) (s : FlowSubmission)
    (fuel t0 : Nat) (id : RunId) (rest : List RunId)
    (hids : s.run_ids = id :: rest) (herr : oracle t0 id = .error ())
    (hfuel : 1 ≤ fuel) :
    s.wait oracle fuel t0 = (.raised s.results 1 t0, s) := by
  obtain ⟨f, rfl⟩ : ∃ f, fuel = f + 1 := ⟨fuel - 1, by omega⟩
  unfold FlowSubmission.wait
  rw [if_neg (by simp [hids]), hids]
  have hscan := scanOnce_error_cons (oracle t0) id rest s.results herr
  simp only [waitLoop, List.isEmpty_cons, Bool.false_eq_true, if_false, hscan,
    Nat.zero_add, Prod.mk.injEq]
  exact ⟨trivial, by rw [← hids]⟩

/-- Witness for C6 at a concrete input: polling run 2 raises at scan 0,
and the batch's wait surfaces the exception with one poll issued. -/
theorem C6_transient_error_aborts_wait_witness :
    subTwoOnly.wait oracleErrSecond 3 0 = (.raised [] 1 0, subTwoOnly) :=
  C6_transient_error_aborts_wait oracleErrSecond subTwoOnly 3 0 2 [] rfl rfl
    (by omega)

/-- Counterexample to C6 as stated: with runs 1 and 2 pending, run 1
reports `Completed` but polling run 2 raises a transient error — the wait
aborts (outcome `raised`, surfaced to the caller) instead of continuing
with the other ids and retrying on the next scan. -/
theorem C6_counterexample :
    subPair.wait oracleErrSecond 5 0 =
      (.raised [(1, "Completed")] 2 0,
        { subPair with results := [(1, "Completed")] }) ∧
    ((subPair.wait oracleErrSecond 5 0).1).isRaised = true :=
  ⟨by decide, by decide⟩

/-- Claim C4 (amended): calling `wait` a second time on an already
fully-terminal batch returns a results mapping identical to the first
call's, but it is not poll-free: the loop re-initialises `pending` to all
of `run_ids` and issues one `read_flow_run` call per id (and no sleep)
before returning the unchanged mapping. -/
theorem C4_second_wait_repolls (oracle : Oracle) (s : FlowSubmission)
    (stOf : RunId → StateType) (fuel1 fuel2 t0 t1 : Nat)
    (hconst : ∀ t id, id ∈ s.run_ids → oracle t id = .ok (stOf id))
    (hfin : ∀ id ∈ s.run_ids, (stOf id).isFinal = true)
    (hnd : s.run_ids.Nodup) (hres : s.results = []) (hne : s.run_ids ≠ []) :
    s.wait oracle (fuel1 + 1) t0 =
      (.done (s.run_ids.map (fun id => (id, (stOf id).name)))
        s.run_ids.length 0 (t0 + 1),
        { s with results := s.run_ids.map (fun id => (id, (stOf id).name)) }) ∧
    FlowSubmission.wait
        { s with results := s.run_ids.map (fun id => (id, (stOf id).name)) }
        oracle (fuel2 + 1) t1 =
      (.done (s.run_ids.map (fun id => (id, (stOf id).name)))
        s.run_ids.length 0 (t1 + 1),
        { s with results := s.run_ids.map (fun id => (id, (stOf id).name)) }) := by
  have hkeys : (s.run_ids.map (fun id => (id, (stOf id).name))).map Prod.fst
      = s.run_ids := by
    rw [List.map_map]
    exact List.map_id _
  constructor
  · have h1 : waitLoop oracle (fuel1 + 1) t0 s.run_ids s.results 0 0 =
        .done (s.run_ids.map (fun id => (id, (stOf id).name)))
          s.run_ids.length 0 (t0 + 1) := by
      rw [hres, waitLoop_allFinal oracle stOf fuel1 t0 s.run_ids []
        (fun id hid => ⟨hconst t0 id hid, hfin id hid⟩) hne]
      have hfold := foldl_updateResult_fresh (fun id => (stOf id).name)
        s.run_ids [] hnd (by simp)
      simp only [List.nil_append] at hfold
      rw [hfold]
    exact wait_of_waitLoop_done s oracle (fuel1 + 1) t0 _ _ _ _ hne h1
  · have h2 : waitLoop oracle (fuel2 + 1) t1 s.run_ids
        (s.run_ids.map (fun id => (id, (stOf id).name))) 0 0 =
        .done (s.run_ids.map (fun id => (id, (stOf id).name)))
          s.run_ids.length 0 (t1 + 1) := by
      rw [waitLoop_allFinal oracle stOf fuel2 t1 s.run_ids
        (s.run_ids.map (fun id => (id, (stOf id).name)))
        (fun id hid => ⟨hconst t1 id hid, hfin id hid⟩) hne]
      have hfold := foldl_updateResult_id (fun id => (stOf id).name) s.run_ids
        (s.run_ids.map (fun id => (id, (stOf id).name)))
        (by rw [hkeys]; exact hnd)
        (fun id hid => List.mem_map.mpr ⟨id, hid, rfl⟩)
      rw [hfold]
    exact wait_of_waitLoop_done
      { s with results := s.run_ids.map (fun id => (id, (stOf id).name)) }
      oracle (fuel2 + 1) t1 _ _ _ _ hne h2

/-- Witness for C4 at a concrete input: run 7 is `Completed` throughout;
the first wait records it, and the second wait returns the identical
mapping after one further poll. -/
theorem C4_second_wait_repolls_witness :
    subOne.wait oracleAllCompleted 1 0 =
      (.done [(7, "Completed")] 1 0 1, { subOne with results := [(7, "Completed")] }) ∧
    FlowSubmission.wait { subOne with results := [(7, "Completed")] }
        oracleAllCompleted 1 5 =
      (.done [(7, "Completed")] 1 0 6, { subOne with results := [(7, "Completed")] }) :=
  C4_second_wait_repolls oracleAllCompleted subOne (fun _ => .Completed) 0 0 0 5
    (fun _ _ _ => rfl) (fun _ _ => rfl) (by decide) rfl (by decide)

/-- Counterexample to C4 as stated: for the fully-terminal batch holding
run 7, the second `wait` call issues one `read_flow_run` call, not zero
(the mapping it returns is nevertheless identical to the first call's). -/
theorem C4_counterexample :
    ((subOne.wait oracleAllCompleted 1 0).2.wait oracleAllCompleted 1 5) =
      (.done [(7, "Completed")] 1 0 6, { subOne with results := [(7, "Completed")] }) ∧
    (((subOne.wait oracleAllCompleted 1 0).2.wait oracleAllCompleted 1 5).1).pollsOf
      = 1 :=
  ⟨by decide, by decide⟩

/-- Claim C7: creating a concurrency limit for a tag that already has one
is a no-op reported as already-existing (the wrapper catches the backend's
"already exists" error and does not re-raise), and after any positive
number of creation attempts for a tag, listing the limits shows exactly
one entry for that tag.  The backend store is modelled from the spec; the
wrapper is `src/scripts/setup_concurrency_limit.py`. -/
theorem C7_concurrency_limit_idempotent :
    (∀ (limits : List (String × Nat)) (tag : String) (mx : Nat),
      tag ∈ limits.map Prod.fst →
      create_concurrency_limit limits tag mx = (limits, .alreadyExists)) ∧
    (∀ (n : Nat) (limits : List (String × Nat)) (tag : String) (mx : Nat),
      (limits.filter (fun q => q.1 = tag)).length ≤ 1 → 1 ≤ n →
      ((list_concurrency_limits (createAttempts n limits tag mx)).filter
        (fun q => q.1 = tag)).length = 1) :=
  ⟨create_limit_of_mem,
    fun n limits tag mx hle h1 => createAttempts_filter tag mx n limits hle h1⟩

/-- Witness for C7 at the spec's concrete example: duplicate creation for
tag "database" is reported as already existing, and two attempts from an
empty store leave exactly one "database" entry. -/
theorem C7_concurrency_limit_idempotent_witness :
    create_concurrency_limit [("database", 3)] "database" 3 =
      ([("database", 3)], .alreadyExists) ∧
    ((list_concurrency_limits (createAttempts 2 [] "database" 3)).filter
      (fun q => q.1 = "database")).length = 1 :=
  ⟨C7_concurrency_limit_idempotent.1 [("database", 3)] "database" 3 (by simp),
    C7_concurrency_limit_idempotent.2 2 [] "database" 3 (by simp) (by omega)⟩

/-- Claim C9: `submit` appends exactly one handle in submission order, a
fresh batch's results dict is empty, and once `wait` returns normally the
results dict has pairwise-distinct keys that are exactly the submitted run
ids. -/
theorem C9_batch_results_invariant :
    (∀ (s : FlowSubmission) (id : RunId),
      s.submit id = ({ s with run_ids := s.run_ids ++ [id] }, id)) ∧
    (∀ d, (flow_submitter d).results = []) ∧
    (∀ (s : FlowSubmission) (oracle : Oracle) (fuel t0 : Nat)
      (r : List (RunId × String)) (p sl tE : Nat) (s2 : FlowSubmission),
      s.results = [] → s.run_ids.Nodup →
      s.wait oracle fuel t0 = (.done r p sl tE, s2) →
      s2.results = r ∧ (r.map Prod.fst).Nodup ∧
        ∀ x, x ∈ r.map Prod.fst ↔ x ∈ s.run_ids) :=
  ⟨fun _ _ => rfl, fun _ => rfl,
    fun s oracle fuel t0 r p sl tE s2 hres hnd hw =>
      wait_done_keys s oracle fuel t0 r p sl tE s2 hres hnd hw⟩

/-- Witness for C9 at concrete inputs: submitting run 3 to the two-run
batch, a fresh batch, and the completed wait over runs 1 and 2. -/
theorem C9_batch_results_invariant_witness :
    subPair.submit 3 = ({ subPair with run_ids := subPair.run_ids ++ [3] }, 3) ∧
    (flow_submitter "pre-etl-job/pre-etl-deployment").results = [] ∧
    ({ subPair with results := [(1, "Completed"), (2, "Completed")] }
      : FlowSubmission).results = [(1, "Completed"), (2, "Completed")] ∧
    ((([(1, "Completed"), (2, "Completed")] : List (RunId × String))).map
      Prod.fst).Nodup ∧
    (1 ∈ (([(1, "Completed"), (2, "Completed")] : List (RunId × String))).map
      Prod.fst ↔ 1 ∈ subPair.run_ids) := by
  have h3 := C9_batch_results_invariant.2.2 subPair oracleAllCompleted 1 0
    [(1, "Completed"), (2, "Completed")] 2 0 1
    { subPair with results := [(1, "Completed"), (2, "Completed")] }
    rfl (by decide) (by decide)
  exact ⟨C9_batch_results_invariant.1 subPair 3,
    C9_batch_results_invariant.2.1 "pre-etl-job/pre-etl-deployment",
    h3.1, h3.2.1, h3.2.2 1⟩

/-- Claim C10: the summary logged by `wait` counts as successes exactly
the runs whose recorded final state name is "Completed"; the failed count
is total minus success, i.e. the number of entries with any other name
(Cancelled and Crashed included); and success plus failed equals the
number of submitted runs. -/
theorem C10_summary_classification (s : FlowSubmission) (oracle : Oracle)
    (fuel t0 : Nat) (r : List (RunId × String)) (p sl tE : Nat) (s2 : FlowSubmission)
    (hres : s.results = []) (hnd : s.run_ids.Nodup)
    (hw : s.wait oracle fuel t0 = (.done r p sl tE, s2)) :
    waitSummary r = (s.run_ids.length,
      (r.filter (fun q => q.2 = "Completed")).length,
      s.run_ids.length - (r.filter (fun q => q.2 = "Completed")).length) ∧
    (r.filter (fun q => q.2 = "Completed")).length +
      (r.filter (fun q => ¬ q.2 = "Completed")).length = s.run_ids.length := by
  obtain ⟨-, hnd2, hiff⟩ := wait_done_keys s oracle fuel t0 r p sl tE s2 hres hnd hw
  have hperm : List.Perm (r.map Prod.fst) s.run_ids :=
    (List.perm_ext_iff_of_nodup hnd2 hnd).mpr hiff
  have hlen : r.length = s.run_ids.length := by
    rw [← List.length_map r Prod.fst]
    exact hperm.length_eq
  have hcount : r.countP (fun q => q.2 = "Completed") =
      (r.filter (fun q => q.2 = "Completed")).length :=
    List.countP_eq_length_filter _ r
  have hsum := countP_add_countP_not r (fun q => decide (q.2 = "Completed"))
  have hneg : (r.filter (fun q => ¬ q.2 = "Completed")).length =
      r.countP (fun a => !(decide (a.2 = "Completed"))) := by
    rw [← List.countP_eq_length_filter]
    congr 1
    funext a
    exact decide_not ..
  constructor
  · unfold waitSummary
    rw [hcount, hlen]
  · omega

/-- Witness for C10 at a concrete input: five runs of which run 3 fails;
the summary reports 4 successes and 1 failure out of 5. -/
theorem C10_summary_classification_witness :
    waitSummary [(1, "Completed"), (2, "Completed"), (3, "Failed"),
        (4, "Completed"), (5, "Completed")] =
      (subFive.run_ids.length,
        (([(1, "Completed"), (2, "Completed"), (3, "Failed"), (4, "Completed"),
          (5, "Completed")] : List (RunId × String)).filter
            (fun q => q.2 = "Completed")).length,
        subFive.run_ids.length -
          (([(1, "Completed"), (2, "Completed"), (3, "Failed"), (4, "Completed"),
            (5, "Completed")] : List (RunId × String)).filter
              (fun q => q.2 = "Completed")).length) ∧
    (([(1, "Completed"), (2, "Completed"), (3, "Failed"), (4, "Completed"),
      (5, "Completed")] : List (RunId × String)).filter
        (fun q => q.2 = "Completed")).length +
      (([(1, "Completed"), (2, "Completed"), (3, "Failed"), (4, "Completed"),
        (5, "Completed")] : List (RunId × String)).filter
          (fun q => ¬ q.2 = "Completed")).length = subFive.run_ids.length :=
  C10_summary_classification subFive oracleThirdFails 1 0
    [(1, "Completed"), (2, "Completed"), (3, "Failed"), (4, "Completed"),
      (5, "Completed")] 5 0 1
    { subFive with results := [(1, "Completed"), (2, "Completed"), (3, "Failed"),
      (4, "Completed"), (5, "Completed")] }
    rfl (by decide) (by decide)

/-- Claim C1: the phase barrier.  In the v3 `main_etl` (and likewise the
v2 `main_etl`), whenever the flow completes, the phase-2 job (`final_etl`)
is submitted only at an instant by which every phase-1 run (`pre_etl` and
`sub_etl`) had already been reported in a terminal state by the backend:
no phase-2 submission exists while a phase-1 handle is non-terminal. -/
theorem C1_phase_barrier :
    (∀ (oracle : Oracle) (preId subId finalId : RunId) (fuel : Nat)
      (run : MainEtlRun),
      mainEtl oracle preId subId finalId fuel = some run →
      ∀ id, id = preId ∨ id = subId →
        ∃ t st, t < run.tFinalSubmit ∧ oracle t id = .ok st ∧
          st.isFinal = true) ∧
    (∀ (oracle : Oracle) (preId subId finalId : RunId) (fuel : Nat)
      (res : MainResultV2 × Nat),
      mainEtlV2 oracle preId subId finalId fuel = some res →
      ∀ id, id = preId ∨ id = subId →
        ∃ t st, t < res.2 ∧ oracle t id = .ok st ∧ st.isFinal = true) := by
  constructor
  · intro oracle preId subId finalId fuel run h id hid
    unfold mainEtl at h
    simp only [flow_submitter, FlowSubmission.submit, List.nil_append] at h
    split at h
    next r1 p1 sl1 t1 pre2 heq1 =>
      split at h
      next r2 p2 sl2 t2 sub2 heq2 =>
        split at h
        next r3 p3 sl3 t3 fin2 heq3 =>
          rw [Option.some.injEq] at h
          subst h
          show ∃ t st, t < t2 ∧ oracle t id = Except.ok st ∧ st.isFinal = true
          obtain ⟨hloop1, -⟩ :=
            wait_done_elim _ oracle fuel 0 r1 p1 sl1 t1 pre2 (by simp) heq1
          obtain ⟨hloop2, -⟩ :=
            wait_done_elim _ oracle fuel t1 r2 p2 sl2 t2 sub2 (by simp) heq2
          have ht12 : t1 ≤ t2 :=
            waitLoop_done_t_le oracle fuel t1 [subId] [] 0 0 r2 p2 sl2 t2 hloop2
          rcases hid with rfl | rfl
          · obtain ⟨t, st, h0, hlt, hok, hfin⟩ :=
              waitLoop_done_mem_final oracle fuel 0 [id] [] 0 0 r1 p1 sl1 t1 hloop1
                id (by simp)
            exact ⟨t, st, by omega, hok, hfin⟩
          · obtain ⟨t, st, h0, hlt, hok, hfin⟩ :=
              waitLoop_done_mem_final oracle fuel t1 [id] [] 0 0 r2 p2 sl2 t2 hloop2
                id (by simp)
            exact ⟨t, st, by omega, hok, hfin⟩
        next => simp at h
      next => simp at h
    next => simp at h
  · intro oracle preId subId finalId fuel res h id hid
    unfold mainEtlV2 at h
    split at h
    next r1 p1 sl1 t1 heq1 =>
      split at h
      next r2 p2 sl2 t2 heq2 =>
        rw [Option.some.injEq] at h
        subst h
        have hmem : id ∈ [preId, subId] := by
          rcases hid with rfl | rfl <;> simp
        obtain ⟨t, st, h0, hlt, hok, hfin⟩ :=
          waitLoop_done_mem_final oracle fuel 0 [preId, subId] [] 0 0 r1 p1 sl1 t1
            heq1 id hmem
        exact ⟨t, st, hlt, hok, hfin⟩
      next => simp at h
    next => simp at h

/-- Witness for C1 at a concrete input: on the all-`Completed` backend the
v3 flow submits `final_etl` at scan instant 2 and the v2 flow at instant 1,
and in both cases the phase-1 run 0 was reported terminal earlier. -/
theorem C1_phase_barrier_witness :
    (∃ t st, t < runDemo.tFinalSubmit ∧ oracleAllCompleted t 0 = .ok st ∧
      st.isFinal = true) ∧
    (∃ t st, t < 1 ∧ oracleAllCompleted t 0 = .ok st ∧ st.isFinal = true) :=
  ⟨C1_phase_barrier.1 oracleAllCompleted 0 1 2 3 runDemo (by decide) 0 (Or.inl rfl),
    C1_phase_barrier.2 oracleAllCompleted 0 1 2 3
      ({ pre_etl_run_id := 0, sub_etl_run_id := 1, final_etl_run_id := 2
       , status := "completed" }, 1) (by decide) 0 (Or.inl rfl)⟩

/-- Claim C3 (amended): the v3 `main_etl` computes no `Succeeded` or
`PartiallyFailed` aggregate: whenever it returns, the returned status
field is the constant string "completed", regardless of per-run outcomes;
non-Completed runs are visible only in the per-batch results dicts (and in
the logged summary counts). -/
theorem C3_status_always_completed (oracle : Oracle) (preId subId finalId : RunId)
    (fuel : Nat) (run : MainEtlRun)
    (h : mainEtl oracle preId subId finalId fuel = some run) :
    run.result.status = "completed" := by
  unfold mainEtl at h
  simp only [flow_submitter, FlowSubmission.submit, List.nil_append] at h
  split at h
  next r1 p1 sl1 t1 pre2 heq1 =>
    split at h
    next r2 p2 sl2 t2 sub2 heq2 =>
      split at h
      next r3 p3 sl3 t3 fin2 heq3 =>
        rw [Option.some.injEq] at h
        subst h
        rfl
      next => simp at h
    next => simp at h
  next => simp at h

/-- Witness for C3 at a concrete input. -/
theorem C3_status_always_completed_witness : runDemo.result.status = "completed" :=
  C3_status_always_completed oracleAllCompleted 0 1 2 3 runDemo (by decide)

/-- Counterexample to C3 as stated: on a backend where the phase-1 run 0
terminates `Failed` (and the others `Completed`), the pipeline run
completes with its results recording the failure, yet the returned overall
status is "completed" — not `Succeeded`-iff-all-Completed, and no
`PartiallyFailed` value exists. -/
theorem C3_counterexample :
    mainEtl oraclePreFails 0 1 2 3 = some runPreFails ∧
    lookupResult runPreFails.preResults 0 = some "Failed" ∧
    runPreFails.result.status = "completed" :=
  ⟨by decide, by decide, rfl⟩

/-- Claim C5: an individual job reaching `Failed` or `Crashed` is data,
not control flow.  Over any handle set on a backend that never raises,
keeps terminal states stable, and eventually reports every id terminal
(with arbitrary terminal states — `Failed` and `Crashed` included), the
wait returns normally and its mapping records each id's terminal state
name; no job's failure aborts the wait for its siblings. -/
theorem C5_partial_failure_is_data (oracle : Oracle) (s : FlowSubmission)
    (fuel t0 : Nat) (hpure : PureOracle oracle) (hmono : MonoFinal oracle)
    (hfin : ∀ id ∈ s.run_ids, ∃ t st, t < t0 + (fuel + 1) ∧ oracle t id = .ok st ∧
      st.isFinal = true) :
    ∃ r p sl tE s2, s.wait oracle (fuel + 1) t0 = (.done r p sl tE, s2) ∧
      ∀ id ∈ s.run_ids, ∃ st, st.isFinal = true ∧ lookupResult r id = some st.name ∧
        ∃ t, oracle t id = .ok st := by
  by_cases hne : s.run_ids = []
  · refine ⟨[], 0, 0, t0, s, ?_, ?_⟩
    · unfold FlowSubmission.wait
      rw [if_pos (by simp [hne])]
    · rw [hne]
      intro id hid
      simp at hid
  · obtain ⟨r, p, sl, tE, hloop, hvals⟩ :=
      waitLoop_done_of_final oracle hpure hmono fuel t0 s.run_ids s.results 0 0 hfin
    exact ⟨r, p, sl, tE, { s with results := r },
      wait_of_waitLoop_done s oracle (fuel + 1) t0 r p sl tE hne hloop, hvals⟩

/-- Witness for C5 at the spec's concrete example: five runs of which run
3 reports `Failed`; the wait returns with all five recorded and no
exception. -/
theorem C5_partial_failure_is_data_witness :
    ∃ r p sl tE s2, subFive.wait oracleThirdFails 1 0 = (.done r p sl tE, s2) ∧
      ∀ id ∈ subFive.run_ids, ∃ st, st.isFinal = true ∧
        lookupResult r id = some st.name ∧ ∃ t, oracleThirdFails t id = .ok st :=
  C5_partial_failure_is_data oracleThirdFails subFive 0 0
    (fun _ id => ⟨if id = 3 then .Failed else .Completed, rfl⟩)
    (fun _ _ _ _ _ hok _ => hok)
    (fun id _ => ⟨0, if id = 3 then .Failed else .Completed, by omega, rfl, by
      split <;> rfl⟩)

end PrefectPoc
